import Mathlib

/-!
Verification of the BiocBuildCheck scraping/parsing layer (`src/check.py`).

The Python functions are shallowly embedded as executable Lean definitions:
pure string manipulation becomes functions on `String`, the pandas rows
become `List Field`, fallible code returns `Except`, and the network layer
(`requests.get` / BeautifulSoup page navigation) is abstracted into explicit
input data: a report page is modelled as the link index that
`get_package_status` builds from it (package name to status card), and the
per-link log fetch is a function `String → Option String` giving the text of
the preformatted block of the linked page, `none` when the page has no such
block.

String primitives (`str.split`, `re.split`, `str.upper`, `str.replace`) are
implemented by structural recursion on the character list so that every
definition evaluates inside the kernel.
-/

namespace Bioc


/-- Python substring test `needle in hay` (contiguous substring). -/
def containsStr (hay needle : String) : Bool :=
  decide (needle.toList <:+: hay.toList)

/-- Fuel-driven worker for `str.split(sep)` with a fixed non-empty separator:
scan left to right, cutting at each non-overlapping occurrence of `sep`.
The fuel is the length of the input, enough for the scan to finish. -/
def splitOnAuxF (sep : List Char) : Nat → List Char → List Char → List (List Char)
  | _, [], acc => [acc.reverse]
  | 0, s, acc => [acc.reverse ++ s]
  | fuel + 1, c :: rest, acc =>
    if sep.isPrefixOf (c :: rest) then
      acc.reverse :: splitOnAuxF sep fuel ((c :: rest).drop sep.length) []
    else
      splitOnAuxF sep fuel rest (c :: acc)

/-- Python `s.split(sep)` for a non-empty separator. -/
def splitOnStr (s sep : String) : List String :=
  (splitOnAuxF sep.toList s.toList.length s.toList []).map List.asString

/-- Worker for splitting on a character predicate, as Python
`re.split` does for a single-character alternation. -/
def splitPredAux (p : Char → Bool) : List Char → List Char → List (List Char)
  | [], acc => [acc.reverse]
  | c :: rest, acc =>
    if p c then acc.reverse :: splitPredAux p rest []
    else splitPredAux p rest (c :: acc)

/-- Python `re.split(r"-|\.", s)`: split on every dash or dot. -/
def splitDashDot (s : String) : List String :=
  (splitPredAux (fun c => c == '-' || c == '.') s.toList []).map List.asString

/-- Python `s.upper()` (the scraped class names are ASCII). -/
def upperStr (s : String) : String :=
  (s.toList.map Char.toUpper).asString

/-- Embedding of `check.parse_log`: normalize the severity token
(`"WARNINGS"` to `"WARNING"`), split the log on the fixed delimiter `"\n*"`,
keep the segments containing the token, then drop those containing
`"DONE"`. -/
def parse_log (log status : String) : List String :=
  let status := if status = "WARNINGS" then "WARNING" else status
  ((splitOnStr log "\n*").filter (fun x => containsStr x status)).filter
    (fun x => !containsStr x "DONE")

/-- The severity-token normalization applied by `parse_log`. -/
def normalizeStatus (status : String) : String :=
  if status = "WARNINGS" then "WARNING" else status

/-- A pandas cell: a string, an integer, or the absent placeholder
(`pd.NA` / `NaN`). -/
inductive Field where
  | str : String → Field
  | nat : Nat → Field
  | na : Field
deriving DecidableEq, Repr

/-- The element found by `card.find(class_=status.upper())`, reduced to the
two attributes the code reads from it: the link target of its parent
(`.parent.get("href")`) and the text of its parent (`.parent.text`). -/
structure Anchor where
  href : Option String
  text : String
deriving DecidableEq, Repr

/-- A status card (`gcard` element) of the long report, reduced to the data
`get_package_status` reads from it: the version and maintainer strings
extracted next to the package link, the card class list after the leading
`"gcard"` marker (`card.get("class")[1:]`), and, keyed by upper-cased
status keyword, the anchor matched by `card.find(class_=status.upper())`
(a missing key models `find` returning `None`). -/
structure CardInfo where
  version : String
  maintainer : String
  classes : List String
  anchors : List (String × Anchor)
deriving DecidableEq, Repr

/-- A long-report page, modelled as the link index `package_dict` that
`get_package_status` builds from it: package name to status card. -/
abbrev Page := List (String × CardInfo)

/-- The exceptions the Python code can raise, by exception class. -/
inductive ScrapeError where
  | attrError : ScrapeError
  | typeError : ScrapeError
  | indexError : ScrapeError
  | keyError : String → ScrapeError
  | dictKeyError : ScrapeError
  | valueError : ScrapeError
  | exception : String → ScrapeError
deriving DecidableEq, Repr

/-- The fixed `check.stage_dict` table. -/
def stage_dict : String → Option String
  | "install" => some "install"
  | "buildsrc" => some "build"
  | "checksrc" => some "check"
  | "buildbin" => some "bin"
  | _ => none

/-- The one-character mojibake (U+00E2) that `get_log_messages` repairs. -/
def misdecodedChar : Char := Char.ofNat 0xE2

/-- An ASCII apostrophe. -/
def aposChar : Char := Char.ofNat 39

/-- Python `pre.text.replace(<mojibake>, "'")`: pattern and replacement are
single characters, so the replacement is a character map. -/
def fixApostrophe (s : String) : String :=
  (s.toList.map (fun c => if c == misdecodedChar then aposChar else c)).asString

/-- Embedding of `check.get_log_messages`. The fetch of the linked log page
is abstracted by `fetchLog`, mapping the link target to the text of the
preformatted block of that page (`none` when the page has no `pre`
element). A missing block, or an empty text, raises
`Exception("Could not find error/warning log.")`. -/
def get_log_messages (fetchLog : String → Option String) (log_link status : String) :
    Except String (List String) :=
  match fetchLog log_link with
  | none => .error "Could not find error/warning log."
  | some pre =>
    let log := fixApostrophe pre
    if log = "" then .error "Could not find error/warning log."
    else .ok (parse_log log status)

/-- Python `tokens[-2]`, for lists with at least two items. -/
def secondLastTok (toks : List String) : String :=
  toks.getD (toks.length - 2) ""

/-- The row stored for a package whose card carries the `"ok"` status
(`src/check.py` lines 277-286). -/
def okRowOf (name ptype release version maintainer : String) : List Field :=
  [.str name, .str ptype, .str release, .str version, .str maintainer,
   .str "OK", .na, .nat 0]

/-- The row stored for a failing status with a log link
(`src/check.py` lines 310-320): the eight fixed fields followed by one cell
per extracted message. -/
def failRowOf (name ptype release version maintainer lvl stage : String)
    (messages : List String) : List Field :=
  [.str name, .str ptype, .str release, .str version, .str maintainer,
   .str lvl, .str stage, .nat messages.length] ++ messages.map Field.str

/-- One iteration of the per-card status loop of `get_package_status`
(`src/check.py` lines 288-320) for a non-`"ok"` status keyword: find the
anchor carrying the upper-cased keyword, read its link target, derive the
stage via `stage_dict`, fetch and parse the linked log, and build the row.
When the link target is missing the Python code stores a pre-build row but,
lacking a `continue`, immediately crashes on `re.split(r"-|\.", None)`
(`TypeError` for a `None` target; an empty or delimiter-free target reaches
`tokens[-2]` and raises `IndexError`), so the stored row never survives.
Returns the row together with its message count. -/
def processFailingStatus (fetchLog : String → Option String)
    (name ptype release version maintainer status : String) (card : CardInfo) :
    Except ScrapeError (List Field × Nat) :=
  match List.lookup (upperStr status) card.anchors with
  | none => .error .attrError
  | some anchor =>
    match anchor.href with
    | none => .error .typeError
    | some link =>
      if (splitDashDot link).length < 2 then .error .indexError
      else
        match stage_dict (secondLastTok (splitDashDot link)) with
        | none => .error (.keyError (secondLastTok (splitDashDot link)))
        | some stage =>
          match get_log_messages fetchLog link (upperStr status) with
          | .error msg => .error (.exception msg)
          | .ok messages =>
            .ok (failRowOf name ptype release version maintainer
                  (upperStr status) stage messages, messages.length)

/-- The per-card scan over the status keywords (`for status in status_list`):
`"gcard"` entries are skipped, the first `"ok"` stores an OK row and breaks,
and every other keyword stores a failing row, overwriting any previous one,
while the running maximum message count is updated. -/
def statusLoop (fetchLog : String → Option String)
    (name ptype release version maintainer : String) (card : CardInfo) :
    List String → Option (List Field) → Nat →
    Except ScrapeError (Option (List Field) × Nat)
  | [], row, m => .ok (row, m)
  | status :: rest, row, m =>
    if status = "gcard" then
      statusLoop fetchLog name ptype release version maintainer card rest row m
    else if status = "ok" then
      .ok (some (okRowOf name ptype release version maintainer), m)
    else
      match processFailingStatus fetchLog name ptype release version maintainer
          status card with
      | .error e => .error e
      | .ok (r, mc) =>
        statusLoop fetchLog name ptype release version maintainer card rest
          (some r) (max mc m)

/-- The row stored for a requested package missing from the link index
(`src/check.py` line 253). The list has only seven entries: the package
type is missing, so every later value sits one column to the left of its
header. -/
def nfRow (name release : String) : List Field :=
  [.str name, .str release, .na, .na, .str "NOT FOUND", .na, .nat 0]

/-- Processing of one requested package on one page: a package missing from
the link index stores `nfRow`; otherwise the status keywords of its card are
scanned. Returns the stored row (`none` when the card has no effective
status keyword) and the updated maximum message count. -/
def processPackage (fetchLog : String → Option String) (page : Page)
    (ptype release name : String) (m : Nat) :
    Except ScrapeError (Option (List Field) × Nat) :=
  match List.lookup name page with
  | none => .ok (some (nfRow name release), m)
  | some card =>
    statusLoop fetchLog name ptype release card.version card.maintainer card
      card.classes none m

/-- The loop over the requested packages of one page, appending each
package's dict entry (the Python dict is keyed by the running index `i`,
so it is a list of entries in order; `none` marks an index that was never
assigned). -/
def processPackages (fetchLog : String → Option String) (page : Page)
    (ptype release : String) :
    List String → List (Option (List Field)) → Nat →
    Except ScrapeError (List (Option (List Field)) × Nat)
  | [], dict, m => .ok (dict, m)
  | name :: rest, dict, m =>
    match processPackage fetchLog page ptype release name m with
    | .error e => .error e
    | .ok (row, mz) =>
      processPackages fetchLog page ptype release rest (dict ++ [row]) mz

/-- The outer loop of `get_package_status` over `zip(releases, pages_data)`.
`fetch` abstracts the per-release, per-type log-page fetch used by
`get_log_messages`: it takes the release flag, the package type and the
link target. -/
def pageLoop (packages : List (String × String))
    (fetch : Bool → String → String → Option String) :
    List (String × (Page × String)) → List (Option (List Field)) → Nat →
    Except ScrapeError (List (Option (List Field)) × Nat)
  | [], dict, m => .ok (dict, m)
  | (release, (page, ptype)) :: rest, dict, m =>
    match processPackages (fetch (release == "release") ptype) page ptype
        release ((packages.filter (fun p => p.2 = ptype)).map (fun p => p.1))
        dict m with
    | .error e => .error e
    | .ok (dict2, m2) => pageLoop packages fetch rest dict2 m2

/-- Worker for `pandas.unique`. -/
def uniqueAux : List String → List String → List String
  | [], _ => []
  | a :: l, seen =>
    if a ∈ seen then uniqueAux l seen else a :: uniqueAux l (a :: seen)

/-- `pandas.unique`: deduplicate keeping the first occurrence. -/
def uniqueList (l : List String) : List String := uniqueAux l []

/-- The `pages_data` comprehension: for each entry of `soups` whose type is
requested, keep the release page and, when `devel` is set, the devel
page. -/
def pagesData (soups : List (String × List Page)) (types : List String)
    (devel : Bool) : List (Page × String) :=
  (soups.filter (fun st => types.contains st.1)).flatMap
    (fun st => (([true, devel].zip st.2).filter (fun ks => ks.1)).map
      (fun ks => (ks.2, st.1)))

/-- The padding pass (`src/check.py` lines 326-327): every dict entry with
key below `len(status_dict)` is padded with `pd.NA` up to `maxLen`; a
missing key below that bound (a card that stored no row, followed by one
that did) raises `KeyError`. -/
def padDict (maxLen : Nat) (dict : List (Option (List Field))) :
    Except ScrapeError (List (List Field)) :=
  if (dict.take (dict.filterMap id).length).all Option.isSome then
    .ok ((dict.filterMap id).map
      (fun r => r ++ List.replicate (maxLen - r.length) Field.na))
  else .error .dictKeyError

/-- A pandas `DataFrame`: column labels plus a rectangular grid of cells. -/
structure Table where
  cols : List String
  rows : List (List Field)
deriving DecidableEq, Repr

/-- The width of the longest row. -/
def tableWidth (rows : List (List Field)) : Nat :=
  (rows.map List.length).foldr max 0

/-- `pd.DataFrame.from_dict(..., orient="index", columns=colNames)`: ragged
rows are first brought to the width of the longest row with `NaN` cells;
the column labels are then attached, raising `ValueError` when their number
differs from that width. -/
def from_dict (colNames : List String) (rows : List (List Field)) :
    Except ScrapeError Table :=
  if rows.isEmpty then .ok ⟨colNames, []⟩
  else if tableWidth rows = colNames.length then
    .ok ⟨colNames,
         rows.map (fun r => r ++ List.replicate (tableWidth rows - r.length) Field.na)⟩
  else .error .valueError

/-- The eight fixed column labels of the status table. -/
def baseCols : List String :=
  ["Name", "Type", "Release", "Version", "Maintainer", "Log Level", "Stage",
   "Message Count"]

/-- Embedding of `check.get_package_status`. `packages` is the requested
(Name, Type) table, `soups` the fetched long-report pages per type (release
page first, then the devel page), and `fetch` the abstracted log-page
fetch. -/
def get_package_status (packages : List (String × String))
    (soups : List (String × List Page)) (devel : Bool)
    (fetch : Bool → String → String → Option String) :
    Except ScrapeError Table :=
  let types := uniqueList (packages.map (fun p => p.2))
  let releases :=
    List.flatten (List.replicate types.length
      (if devel then ["release", "devel"] else ["release"]))
  match pageLoop packages fetch (releases.zip (pagesData soups types devel)) [] 0 with
  | .error e => .error e
  | .ok (dict, m) =>
    let colNames :=
      baseCols ++ (List.range m).map (fun j => "Message " ++ toString (j + 1))
    match padDict (7 + m) dict with
    | .error e => .error e
    | .ok rows => from_dict colNames rows

/-- Whether a cell is the absent placeholder. -/
def Field.isNA : Field → Bool
  | .na => true
  | _ => false

/-- The number of message cells of a framed row: non-absent cells beyond
the eight fixed columns. -/
def msgCount (r : List Field) : Nat :=
  ((r.drop 8).filter (fun f => !f.isNA)).length

/-- The card occurs on one of the fetched pages. -/
def CardOf (soups : List (String × List Page)) (card : CardInfo) : Prop :=
  ∃ t pages pg nm, (t, pages) ∈ soups ∧ pg ∈ pages ∧ (nm, card) ∈ pg

/-- The page is one of the fetched pages. -/
def PageOf (soups : List (String × List Page)) (page : Page) : Prop :=
  ∃ t pages, (t, pages) ∈ soups ∧ page ∈ pages

/-- Invariant of the rows stored in `status_dict` while `get_package_status`
runs with maximum message count `m`: each row is a (misaligned) not-found
row, an OK row, or a failing row with at most `m` messages whose log level
is the upper-cased form of a non-`"ok"`, non-`"gcard"` class keyword of
some card of the fetched pages. -/
def GoodRow (soups : List (String × List Page)) (m : Nat) (r : List Field) :
    Prop :=
  (∃ nm rel, r = nfRow nm rel)
  ∨ (∃ nm t rel v mnt, r = okRowOf nm t rel v mnt)
  ∨ (∃ nm t rel v mnt status stage msgs card,
      r = failRowOf nm t rel v mnt (upperStr status) stage msgs
      ∧ msgs.length ≤ m
      ∧ CardOf soups card ∧ status ∈ card.classes
      ∧ status ≠ "ok" ∧ status ≠ "gcard")

/-- Invariant of the whole dict: every stored row is good, and the maximum
message count is still zero while no row has been stored. -/
def DictInv (soups : List (String × List Page)) (m : Nat)
    (dict : List (Option (List Field))) : Prop :=
  (∀ r? ∈ dict, ∀ r, r? = some r → GoodRow soups m r)
  ∧ (dict.filterMap id = [] → m = 0)

/-- A row of the upstream tab-separated download-stats resource
(columns `Year, Month, Nb_of_downloads, Nb_of_distinct_IPs`). -/
structure RawStatRow where
  Year : Int
  Month : String
  Nb_of_downloads : Int
  Nb_of_distinct_IPs : Int
deriving DecidableEq, Repr

/-- A timestamp, compared lexicographically. -/
structure DateTime where
  year : Int
  month : Nat
  day : Nat
  hour : Nat
  minute : Nat
deriving DecidableEq, Repr

/-- Strict `<` on timestamps (pandas `Date < @now`). -/
def DateTime.before (a b : DateTime) : Bool :=
  decide (a.year < b.year) ||
  (decide (a.year = b.year) &&
    (decide (a.month < b.month) ||
     (decide (a.month = b.month) &&
       (decide (a.day < b.day) ||
        (decide (a.day = b.day) &&
          (decide (a.hour < b.hour) ||
           (decide (a.hour = b.hour) && decide (a.minute < b.minute))))))))

/-- Month-name table of the `%b` directive used by
`pd.to_datetime(..., format="%Y-%b")`. -/
def monthNum : String → Option Nat
  | "Jan" => some 1
  | "Feb" => some 2
  | "Mar" => some 3
  | "Apr" => some 4
  | "May" => some 5
  | "Jun" => some 6
  | "Jul" => some 7
  | "Aug" => some 8
  | "Sep" => some 9
  | "Oct" => some 10
  | "Nov" => some 11
  | "Dec" => some 12
  | _ => none

/-- A row of the assembled download-stats frame. -/
structure DownloadStat where
  Name : String
  Date : DateTime
  Downloads : Int
  DistinctIPs : Int
deriving DecidableEq, Repr

/-- Conversion of one upstream row to a `DownloadStat`:
`pd.to_datetime(Year + "-" + Month)` gives the first instant of the month
and raises `ValueError` on an unparseable month name. -/
def statOfRaw (name : String) (r : RawStatRow) : Except ScrapeError DownloadStat :=
  match monthNum r.Month with
  | none => .error .valueError
  | some mo =>
    .ok ⟨name, ⟨r.Year, mo, 1, 0, 0⟩, r.Nb_of_downloads, r.Nb_of_distinct_IPs⟩

/-- Left-to-right map that stops at the first error. -/
def mapExcept (f : α → Except ε β) : List α → Except ε (List β)
  | [] => .ok []
  | a :: l =>
    match f a with
    | .error e => .error e
    | .ok b =>
      match mapExcept f l with
      | .error e => .error e
      | .ok bs => .ok (b :: bs)

/-- The per-package pipeline of `get_download_stats`
(`src/check.py` lines 367-385): drop the `"all"` aggregate rows, attach the
date, and keep only rows dated strictly before the query time. -/
def packageStats (name : String) (now : DateTime) (rows : List RawStatRow) :
    Except ScrapeError (List DownloadStat) :=
  match mapExcept (statOfRaw name) (rows.filter (fun r => r.Month != "all")) with
  | .error e => .error e
  | .ok dated => .ok (dated.filter (fun s => s.Date.before now))

/-- Embedding of `check.get_download_stats`. `fetchTab` abstracts
`pd.read_csv` of the per-package stats URL (`none`: the request raises and
the package is skipped); `clock` gives the `datetime.now()` reading taken
while processing each package. A query yielding no readable package raises
`BiocDownloadsError`; the accumulator is the `dfs` list, `[]` at the call
site. -/
def get_download_stats (fetchTab : String → Option (List RawStatRow))
    (clock : String → DateTime) :
    List String → List (List DownloadStat) →
    Except ScrapeError (List DownloadStat)
  | [], dfs =>
    if dfs.isEmpty then
      .error (.exception "None of the packages have any download data.")
    else .ok dfs.flatten
  | name :: rest, dfs =>
    match fetchTab name with
    | none => get_download_stats fetchTab clock rest dfs
    | some rows =>
      match packageStats name (clock name) rows with
      | .error e => .error e
      | .ok df => get_download_stats fetchTab clock rest (dfs ++ [df])

/-- A GitHub issue, reduced to the fields `get_github_status` reads:
title, number, label names (in order), assignee flag, and URL. -/
structure Issue where
  title : String
  number : Int
  labels : List String
  assigned : Bool
  html_url : String
deriving DecidableEq, Repr

/-- A row of the issue-details frame. -/
structure IssueRow where
  Name : String
  Title : String
  Number : Int
  Labelled : String
  Bug : String
  Assigned : String
  URL : String
deriving DecidableEq, Repr

/-- The detail row built for one issue (`src/check.py` lines 496-508):
`Labelled` is `"Yes"` exactly when the label list is non-empty, and `Bug`
is `"Yes"` exactly when, additionally, `"bug"` occurs as a substring of the
first label name (`labs[0].name`); later labels are never read. -/
def issueRow (pak : String) (issue : Issue) : IssueRow :=
  let isLabled := !issue.labels.isEmpty
  { Name := pak
    Title := issue.title
    Number := issue.number
    Labelled := if isLabled then "Yes" else "No"
    Bug :=
      if (if isLabled then containsStr (issue.labels.headD "") "bug" else false)
      then "Yes" else "No"
    Assigned := if issue.assigned then "Yes" else "No"
    URL := issue.html_url }

/-- Embedding of `check.get_github_status`: packages with no issue data go
to the missing list, packages with an empty issue tuple to the no-issues
list, and every issue of the rest contributes a detail row; the frame is
`none` when no detail rows were produced. The three accumulators are `[]`
at the call site. -/
def get_github_status :
    List (String × Option (List Issue)) →
    List IssueRow → List String → List String →
    Option (List IssueRow) × List String × List String
  | [], detail, missing, noIss =>
    (if detail.isEmpty then none else some detail, missing, noIss)
  | (pak, none) :: rest, detail, missing, noIss =>
    get_github_status rest detail (missing ++ [pak]) noIss
  | (pak, some []) :: rest, detail, missing, noIss =>
    get_github_status rest detail missing (noIss ++ [pak])
  | (pak, some (i :: is)) :: rest, detail, missing, noIss =>
    get_github_status rest (detail ++ (i :: is).map (issueRow pak)) missing noIss

deriving instance DecidableEq for Except

/-- A card carrying the `"ok"` status, as scraped from a report page. -/
def okCard : CardInfo := ⟨"1.0", "Alice", ["ok"], []⟩

/-- A card carrying the `"error"` status with a linked check log. -/
def errCard : CardInfo :=
  ⟨"2.0", "Bob", ["error"], [("ERROR", ⟨some "beta-checksrc.html", "ctx"⟩)]⟩

/-- A card carrying the `"error"` status whose anchor has no link target. -/
def noHrefCard : CardInfo :=
  ⟨"3.0", "Eve", ["error"], [("ERROR", ⟨none, "failing (unsupported platform)"⟩)]⟩

/-- A log fetch whose fetched log contains no matching severity segment. -/
def emptyLogFetch : Bool → String → String → Option String :=
  fun _ _ link =>
    if link == "beta-checksrc.html" then some "no matching segments" else none

/-- A log fetch returning a log with exactly one ERROR segment. -/
def oneErrFetch : String → Option String :=
  fun link =>
    if link == "beta-checksrc.html"
    then some "intro\n*checking X ... ERROR\n*DONE" else none

/-- The log fetch of the shared witness batch: the `beta` log holds two
ERROR segments and a DONE segment. -/
def fetchW : Bool → String → String → Option String :=
  fun _ _ link =>
    if link == "beta-checksrc.html"
    then some
      "intro\n*checking X ... ERROR\ndetail one\n*checking Y ... ERROR\nmore\n*DONE"
    else none

/-- The packages of the shared witness batch. -/
def packagesW : List (String × String) :=
  [("alpha", "Software"), ("beta", "Software"), ("gamma", "Software")]

/-- The pages of the shared witness batch: `alpha` is OK, `beta` fails with
a linked check log, `gamma` is absent. -/
def soupsW : List (String × List Page) :=
  [("Software", [[("alpha", okCard), ("beta", errCard)]])]

/-- The table the shared witness batch produces. -/
def tblW : Table :=
  ⟨baseCols ++ ["Message 1", "Message 2"],
   [[Field.str "alpha", Field.str "Software", Field.str "release",
     Field.str "1.0", Field.str "Alice", Field.str "OK", Field.na,
     Field.nat 0, Field.na, Field.na],
    [Field.str "beta", Field.str "Software", Field.str "release",
     Field.str "2.0", Field.str "Bob", Field.str "ERROR", Field.str "check",
     Field.nat 2, Field.str "checking X ... ERROR\ndetail one",
     Field.str "checking Y ... ERROR\nmore"],
    [Field.str "gamma", Field.str "release", Field.na, Field.na,
     Field.str "NOT FOUND", Field.na, Field.nat 0, Field.na, Field.na,
     Field.na]]⟩

/-- Upstream stats rows of the C7 witness: a regular past month, the "all"
aggregate, and a placeholder dated in the future. -/
def rawW : List RawStatRow :=
  [⟨2020, "Jan", 5, 3⟩, ⟨2020, "all", 100, 60⟩, ⟨3000, "Jan", 0, 0⟩]

/-- The stats fetch of the C7 witness. -/
def fetchTabW : String → Option (List RawStatRow) :=
  fun n => if n == "pkg" then some rawW else none

/-- The clock of the C7 witness. -/
def clockW : String → DateTime := fun _ => ⟨2025, 10, 12, 0, 0⟩

/-- The single surviving row of the C7 witness. -/
def statW : DownloadStat := ⟨"pkg", ⟨2020, 1, 1, 0, 0⟩, 5, 3⟩

/-- The issue of the C10 witness: two labels, the first containing "bug". -/
def issueW : Issue := ⟨"crash on load", 7, ["bugfix", "ui"], false, "u"⟩

/-- The query of the C10 witness. -/
def queryW : List (String × Option (List Issue)) :=
  [("pkg", some [issueW]), ("nope", none), ("empt", some [])]

/-- C1: for every log text and severity token, `parse_log` returns exactly
the segments of the log (split on `"\n*"`, in original order) that contain
the normalized severity token and do not contain `"DONE"`; in particular no
returned fragment contains `"DONE"`, every returned fragment contains the
normalized token, and when no segment matches the result is the empty
list. -/
theorem parse_log_exact_segments (log status : String) :
    parse_log log status =
      (splitOnStr log "\n*").filter
        (fun x => containsStr x (normalizeStatus status) && !containsStr x "DONE")
    ∧ (∀ x ∈ parse_log log status,
        containsStr x (normalizeStatus status) = true ∧ containsStr x "DONE" = false)
    ∧ ((∀ x ∈ splitOnStr log "\n*",
          ¬(containsStr x (normalizeStatus status) = true ∧
            containsStr x "DONE" = false)) →
        parse_log log status = []) := by
  have hmain : parse_log log status =
      (splitOnStr log "\n*").filter
        (fun x => containsStr x (normalizeStatus status) && !containsStr x "DONE") := by
    simp only [parse_log, normalizeStatus, List.filter_filter]
    refine List.filter_congr ?_
    intro x _
    exact Bool.and_comm _ _
  refine ⟨hmain, ?_, ?_⟩
  · intro x hx
    rw [hmain] at hx
    have := List.of_mem_filter hx
    simp only [Bool.and_eq_true, Bool.not_eq_true'] at this
    exact this
  · intro hall
    rw [hmain]
    rw [List.filter_eq_nil_iff]
    intro x hx
    have := hall x hx
    simp only [Bool.and_eq_true, Bool.not_eq_true'] at this ⊢
    exact this

/-- Witness for C1 at a concrete log and severity. -/
theorem parse_log_exact_segments_witness :
    (parse_log "head\n*foo WARNING bar\n*baz DONE WARNING\n*plain" "WARNINGS" =
      (splitOnStr "head\n*foo WARNING bar\n*baz DONE WARNING\n*plain" "\n*").filter
        (fun x => containsStr x (normalizeStatus "WARNINGS") && !containsStr x "DONE"))
    ∧ (∀ x ∈ parse_log "head\n*foo WARNING bar\n*baz DONE WARNING\n*plain" "WARNINGS",
        containsStr x (normalizeStatus "WARNINGS") = true ∧
          containsStr x "DONE" = false) :=
  ⟨(parse_log_exact_segments "head\n*foo WARNING bar\n*baz DONE WARNING\n*plain"
      "WARNINGS").1,
   (parse_log_exact_segments "head\n*foo WARNING bar\n*baz DONE WARNING\n*plain"
      "WARNINGS").2.1⟩

/-- C4 (code bug): a requested package absent from the link index is stored
as a seven-entry row omitting the package type, so in the framed table the
literal `"NOT FOUND"` sits under the `Maintainer` header (index 4) while
the `Log Level` column (index 5) holds the absent placeholder — not
`"NOT FOUND"` as the spec states. -/
theorem not_found_row_misaligned :
    (get_package_status [("alpha", "Software"), ("gamma", "Software")]
        [("Software", [[("alpha", okCard)]])] false (fun _ _ _ => none) =
      .ok ⟨baseCols,
        [okRowOf "alpha" "Software" "release" "1.0" "Alice",
         nfRow "gamma" "release" ++ [Field.na]]⟩)
    ∧ (nfRow "gamma" "release" ++ [Field.na])[5]? = some Field.na
    ∧ (nfRow "gamma" "release" ++ [Field.na])[4]? = some (Field.str "NOT FOUND")
    ∧ baseCols[5]? = some "Log Level"
    ∧ baseCols[4]? = some "Maintainer" := by decide

/-- C5 (code bug): for a found package whose failing-status anchor carries
no link target, `get_package_status` stores a pre-build row but, lacking a
`continue`, falls through to `re.split(r"-|\.", None)`: the whole call
raises `TypeError` and no record is emitted. -/
theorem prebuild_fallthrough_raises :
    get_package_status [("delta", "Software")]
        [("Software", [[("delta", noHrefCard)]])] false (fun _ _ _ => none) =
      .error .typeError := by decide

/-- C2 (counterexample): a produced record can have a failing log level
with stage present and message count 0 — the claimed invariant
`messageCount ≥ 1` for non-OK, non-NOT-FOUND levels fails when the fetched
log has no matching segment. -/
theorem error_level_zero_messages :
    (get_package_status [("beta", "Software")]
        [("Software", [[("beta", errCard)]])] false emptyLogFetch =
      .ok ⟨baseCols,
        [[Field.str "beta", Field.str "Software", Field.str "release",
          Field.str "2.0", Field.str "Bob", Field.str "ERROR",
          Field.str "check", Field.nat 0]]⟩)
    ∧ ([Field.str "beta", Field.str "Software", Field.str "release",
        Field.str "2.0", Field.str "Bob", Field.str "ERROR",
        Field.str "check", Field.nat 0][5]? = some (Field.str "ERROR"))
    ∧ ([Field.str "beta", Field.str "Software", Field.str "release",
        Field.str "2.0", Field.str "Bob", Field.str "ERROR",
        Field.str "check", Field.nat 0][6]? = some (Field.str "check"))
    ∧ ([Field.str "beta", Field.str "Software", Field.str "release",
        Field.str "2.0", Field.str "Bob", Field.str "ERROR",
        Field.str "check", Field.nat 0][7]? = some (Field.nat 0)) := by decide

/-- C8 (counterexample): when the linked log page has no preformatted
block, the raised exception carries the fixed message
`"Could not find error/warning log."`, which names neither the package
(`"beta"`) nor the release channel (`"release"`). -/
theorem missing_log_exception_nameless :
    (get_package_status [("beta", "Software")]
        [("Software", [[("beta", errCard)]])] false (fun _ _ _ => none) =
      .error (.exception "Could not find error/warning log."))
    ∧ containsStr "Could not find error/warning log." "beta" = false
    ∧ containsStr "Could not find error/warning log." "release" = false := by
  refine ⟨by decide, by decide, by decide⟩

/-- Inversion of a successful `processFailingStatus`: the anchor was found,
its link target was present, the second-to-last token of the split link
was mapped by `stage_dict`, the linked log was fetched and parsed, and the
stored row has the failing shape. -/
theorem processFailingStatus_ok_inv
    {fetchLog : String → Option String}
    {name ptype release version maintainer status : String} {card : CardInfo}
    {row : List Field} {mc : Nat}
    (h : processFailingStatus fetchLog name ptype release version maintainer
      status card = .ok (row, mc)) :
    ∃ anchor link stage msgs,
      List.lookup (upperStr status) card.anchors = some anchor ∧
      anchor.href = some link ∧
      2 ≤ (splitDashDot link).length ∧
      stage_dict (secondLastTok (splitDashDot link)) = some stage ∧
      get_log_messages fetchLog link (upperStr status) = .ok msgs ∧
      row = failRowOf name ptype release version maintainer (upperStr status)
        stage msgs ∧
      mc = msgs.length := by
  unfold processFailingStatus at h
  split at h
  · simp at h
  next anchor hanchor =>
    split at h
    · simp at h
    next link hlink =>
      split at h
      · simp at h
      next hlen =>
        split at h
        · simp at h
        next stage hstage =>
          split at h
          · simp at h
          next msgs hmsgs =>
            obtain ⟨h1, h2⟩ : _ ∧ _ := by simpa using h
            exact ⟨anchor, link, stage, msgs, hanchor, hlink, by omega, hstage,
              hmsgs, h1.symm, h2.symm⟩

/-- C6: whenever the per-status processing of a failing package with a log
link succeeds, the emitted stage (the cell under the `Stage` header, index
6) is obtained by splitting the link target on `"-"` and `"."` and mapping
the second-to-last token through the fixed `stage_dict` table. -/
theorem stage_from_link_token
    (fetchLog : String → Option String)
    (name ptype release version maintainer status : String) (card : CardInfo)
    (row : List Field) (mc : Nat)
    (h : processFailingStatus fetchLog name ptype release version maintainer
      status card = .ok (row, mc)) :
    ∃ anchor link stage,
      List.lookup (upperStr status) card.anchors = some anchor ∧
      anchor.href = some link ∧
      2 ≤ (splitDashDot link).length ∧
      stage_dict (secondLastTok (splitDashDot link)) = some stage ∧
      row[6]? = some (Field.str stage) := by
  obtain ⟨anchor, link, stage, msgs, h1, h2, h3, h4, _, hrow, _⟩ :=
    processFailingStatus_ok_inv h
  refine ⟨anchor, link, stage, h1, h2, h3, h4, ?_⟩
  subst hrow
  simp [failRowOf]

/-- Witness for C6 at the concrete link `"beta-checksrc.html"`, whose
second-to-last token `"checksrc"` maps to stage `"check"`. -/
theorem stage_from_link_token_witness :
    ∃ anchor link stage,
      List.lookup (upperStr "error") errCard.anchors = some anchor ∧
      anchor.href = some link ∧
      2 ≤ (splitDashDot link).length ∧
      stage_dict (secondLastTok (splitDashDot link)) = some stage ∧
      (failRowOf "beta" "Software" "release" "2.0" "Bob" (upperStr "error")
        "check" ["checking X ... ERROR"])[6]? = some (Field.str stage) :=
  stage_from_link_token oneErrFetch "beta" "Software" "release" "2.0" "Bob"
    "error" errCard
    (failRowOf "beta" "Software" "release" "2.0" "Bob" (upperStr "error")
      "check" ["checking X ... ERROR"]) 1 (by decide)

/-- C9: a found failing package whose log link splits to a second-to-last
token outside the `stage_dict` table makes `get_package_status` raise the
unguarded lookup error instead of emitting a record for that package. -/
theorem unknown_stage_token_raises
    (name version maintainer text link : String)
    (fetch : Bool → String → String → Option String)
    (hlen : 2 ≤ (splitDashDot link).length)
    (htok : stage_dict (secondLastTok (splitDashDot link)) = none) :
    get_package_status [(name, "Software")]
      [("Software", [[(name, ⟨version, maintainer, ["error"],
        [("ERROR", ⟨some link, text⟩)]⟩)]])] false fetch =
      .error (.keyError (secondLastTok (splitDashDot link))) := by
  have hup : upperStr "error" = "ERROR" := by decide
  have hlen2 : ¬((splitDashDot link).length < 2) := by omega
  simp [get_package_status, uniqueList, uniqueAux, pagesData, pageLoop,
    processPackages, processPackage, statusLoop, processFailingStatus,
    hup, hlen2, htok]

/-- Witness for C9: the link `"a-b.html"` has second-to-last token `"b"`,
which `stage_dict` does not map. -/
theorem unknown_stage_token_raises_witness :
    get_package_status [("pkg", "Software")]
      [("Software", [[("pkg", ⟨"1.0", "Ann", ["error"],
        [("ERROR", ⟨some "a-b.html", "t"⟩)]⟩)]])] false (fun _ _ _ => none) =
      .error (.keyError (secondLastTok (splitDashDot "a-b.html"))) :=
  unknown_stage_token_raises "pkg" "1.0" "Ann" "t" "a-b.html"
    (fun _ _ _ => none) (by decide) (by decide)

/-- A good row stays good as the running maximum grows. -/
theorem GoodRow.mono {soups : List (String × List Page)} {m m2 : Nat}
    {r : List Field} (h : GoodRow soups m r) (hm : m ≤ m2) :
    GoodRow soups m2 r := by
  obtain h | h | ⟨nm, t, rel, v, mnt, status, stage, msgs, card, hr, hle, hc⟩ := h
  · exact Or.inl h
  · exact Or.inr (Or.inl h)
  · exact Or.inr (Or.inr ⟨nm, t, rel, v, mnt, status, stage, msgs, card, hr,
      le_trans hle hm, hc⟩)

/-- A successful association-list lookup pins a list member. -/
theorem lookup_mem {β : Type} {l : List (String × β)} {a : String} {b : β}
    (h : List.lookup a l = some b) : (a, b) ∈ l := by
  induction l with
  | nil => simp [List.lookup] at h
  | cons p rest ih =>
    obtain ⟨k, v⟩ := p
    rw [List.lookup] at h
    cases hak : a == k with
    | true =>
      rw [hak] at h
      obtain rfl : v = b := by simpa using h
      obtain rfl : a = k := eq_of_beq hak
      exact List.mem_cons_self _ _
    | false =>
      rw [hak] at h
      exact List.mem_cons_of_mem _ (ih h)

/-- Invariant of the per-card status scan: starting from a good stored row,
a successful scan only grows the maximum message count, ends with a good
stored row, and leaves both unchanged when nothing was stored. -/
theorem statusLoop_inv {soups : List (String × List Page)}
    (fetchLog : String → Option String)
    (name ptype release version maintainer : String) (card : CardInfo)
    (hcard : CardOf soups card) :
    ∀ (statuses : List String) (row : Option (List Field)) (m : Nat)
      (row2 : Option (List Field)) (m2 : Nat),
      (∀ s ∈ statuses, s ∈ card.classes) →
      (∀ r, row = some r → GoodRow soups m r) →
      statusLoop fetchLog name ptype release version maintainer card statuses
        row m = .ok (row2, m2) →
      m ≤ m2 ∧ (∀ r, row2 = some r → GoodRow soups m2 r) ∧
        (row2 = none → row = none ∧ m2 = m)
  | [], row, m, row2, m2, _, hrow, h => by
    obtain ⟨h1, h2⟩ : row = row2 ∧ m = m2 := by simpa [statusLoop] using h
    subst h1; subst h2
    exact ⟨le_refl m, hrow, fun hn => ⟨hn, rfl⟩⟩
  | status :: rest, row, m, row2, m2, hsub, hrow, h => by
    rw [statusLoop] at h
    by_cases hgc : status = "gcard"
    · rw [if_pos hgc] at h
      exact statusLoop_inv fetchLog name ptype release version maintainer card
        hcard rest row m row2 m2
        (fun s hs => hsub s (List.mem_cons_of_mem _ hs)) hrow h
    rw [if_neg hgc] at h
    by_cases hok : status = "ok"
    · rw [if_pos hok] at h
      obtain ⟨h1, h2⟩ :
          some (okRowOf name ptype release version maintainer) = row2 ∧ m = m2 := by
        simpa using h
      subst h1; subst h2
      refine ⟨le_refl m, fun r hr => ?_, by simp⟩
      obtain rfl : okRowOf name ptype release version maintainer = r := by
        simpa using hr
      exact Or.inr (Or.inl ⟨name, ptype, release, version, maintainer, rfl⟩)
    rw [if_neg hok] at h
    cases hps : processFailingStatus fetchLog name ptype release version
        maintainer status card with
    | error e => rw [hps] at h; simp at h
    | ok rm =>
      obtain ⟨r, mc⟩ := rm
      rw [hps] at h
      obtain ⟨anchor, link, stage, msgs, _, _, _, _, _, hr, hmc⟩ :=
        processFailingStatus_ok_inv hps
      have hgood : GoodRow soups (max mc m) r := by
        subst hr; subst hmc
        exact Or.inr (Or.inr ⟨name, ptype, release, version, maintainer,
          status, stage, msgs, card, rfl, le_max_left _ _, hcard,
          hsub status (List.mem_cons_self _ _), hok, hgc⟩)
      have hrec := statusLoop_inv fetchLog name ptype release version
        maintainer card hcard rest (some r) (max mc m) row2 m2
        (fun s hs => hsub s (List.mem_cons_of_mem _ hs))
        (fun r0 hr0 => by
          obtain rfl : r = r0 := by simpa using hr0
          exact hgood) h
      refine ⟨le_trans (le_max_right mc m) hrec.1, hrec.2.1, fun hn => ?_⟩
      have := (hrec.2.2 hn).1
      simp at this

/-- Invariant of the per-package step: a package stores a good row (or
nothing, leaving the maximum unchanged). -/
theorem processPackage_inv {soups : List (String × List Page)}
    (fetchLog : String → Option String) (page : Page)
    (ptype release name : String) (m : Nat)
    (row2 : Option (List Field)) (m2 : Nat)
    (hpage : PageOf soups page)
    (h : processPackage fetchLog page ptype release name m = .ok (row2, m2)) :
    m ≤ m2 ∧ (∀ r, row2 = some r → GoodRow soups m2 r) ∧
      (row2 = none → m2 = m) := by
  rw [processPackage] at h
  cases hlk : List.lookup name page with
  | none =>
    rw [hlk] at h
    obtain ⟨h1, h2⟩ : some (nfRow name release) = row2 ∧ m = m2 := by simpa using h
    subst h1; subst h2
    refine ⟨le_refl m, fun r hr => ?_, by simp⟩
    obtain rfl : nfRow name release = r := by simpa using hr
    exact Or.inl ⟨name, release, rfl⟩
  | some card =>
    rw [hlk] at h
    have hcard : CardOf soups card := by
      obtain ⟨t, pages, hmem, hpg⟩ := hpage
      exact ⟨t, pages, page, name, hmem, hpg, lookup_mem hlk⟩
    have hres := statusLoop_inv fetchLog name ptype release card.version
      card.maintainer card hcard card.classes none m row2 m2
      (fun _ hs => hs) (fun r hr => by simp at hr) h
    exact ⟨hres.1, hres.2.1, fun hn => (hres.2.2 hn).2⟩

/-- Invariant of the per-page package loop: the dict invariant is preserved
and the maximum message count only grows. -/
theorem processPackages_inv {soups : List (String × List Page)}
    (fetchLog : String → Option String) (page : Page) (ptype release : String)
    (hpage : PageOf soups page) :
    ∀ (names : List String) (dict : List (Option (List Field))) (m : Nat)
      (dict2 : List (Option (List Field))) (m2 : Nat),
      DictInv soups m dict →
      processPackages fetchLog page ptype release names dict m = .ok (dict2, m2) →
      m ≤ m2 ∧ DictInv soups m2 dict2
  | [], dict, m, dict2, m2, hinv, h => by
    obtain ⟨h1, h2⟩ : dict = dict2 ∧ m = m2 := by simpa [processPackages] using h
    subst h1; subst h2
    exact ⟨le_refl m, hinv⟩
  | name :: rest, dict, m, dict2, m2, hinv, h => by
    rw [processPackages] at h
    cases hpp : processPackage fetchLog page ptype release name m with
    | error e => rw [hpp] at h; simp at h
    | ok rm =>
      obtain ⟨row, mz⟩ := rm
      rw [hpp] at h
      have hstep := processPackage_inv fetchLog page ptype release name m
        row mz hpage hpp
      have hinv2 : DictInv soups mz (dict ++ [row]) := by
        constructor
        · intro r? hr? r hr
          rcases List.mem_append.mp hr? with hin | hin
          · exact (hinv.1 r? hin r hr).mono hstep.1
          · obtain rfl : r? = row := by simpa using hin
            exact hstep.2.1 r hr
        · intro hemp
          rw [List.filterMap_append] at hemp
          rcases List.append_eq_nil.mp hemp with ⟨hd, hrow⟩
          have hrn : row = none := by
            cases row with
            | none => rfl
            | some r => simp [List.filterMap] at hrow
          subst hrn
          rw [hstep.2.2 rfl]
          exact hinv.2 hd
      have hrec := processPackages_inv fetchLog page ptype release hpage rest
        (dict ++ [row]) mz dict2 m2 hinv2 h
      exact ⟨le_trans hstep.1 hrec.1, hrec.2⟩

/-- Membership in `pagesData` pins a page of `soups`. -/
theorem pagesData_pageOf {soups : List (String × List Page)}
    {types : List String} {devel : Bool} {pg : Page} {t : String}
    (h : (pg, t) ∈ pagesData soups types devel) : PageOf soups pg := by
  rw [pagesData] at h
  rw [List.mem_flatMap] at h
  obtain ⟨st, hst, hmem⟩ := h
  rw [List.mem_map] at hmem
  obtain ⟨ks, hks, hpair⟩ := hmem
  obtain ⟨h1, h2⟩ : ks.2 = pg ∧ st.1 = t := by
    constructor <;> [exact congrArg Prod.fst hpair; exact congrArg Prod.snd hpair]
  have hks2 := List.of_mem_filter hks
  have hksmem := List.mem_of_mem_filter hks
  have := List.of_mem_zip hksmem
  exact ⟨st.1, st.2, List.mem_of_mem_filter hst, h1 ▸ this.2⟩

/-- Invariant of the outer page loop. -/
theorem pageLoop_inv {soups : List (String × List Page)}
    (packages : List (String × String))
    (fetch : Bool → String → String → Option String) :
    ∀ (items : List (String × (Page × String)))
      (dict : List (Option (List Field))) (m : Nat)
      (dict2 : List (Option (List Field))) (m2 : Nat),
      (∀ it ∈ items, PageOf soups it.2.1) →
      DictInv soups m dict →
      pageLoop packages fetch items dict m = .ok (dict2, m2) →
      m ≤ m2 ∧ DictInv soups m2 dict2
  | [], dict, m, dict2, m2, _, hinv, h => by
    obtain ⟨h1, h2⟩ : dict = dict2 ∧ m = m2 := by simpa [pageLoop] using h
    subst h1; subst h2
    exact ⟨le_refl m, hinv⟩
  | (release, (page, ptype)) :: rest, dict, m, dict2, m2, hpages, hinv, h => by
    rw [pageLoop] at h
    cases hpp : processPackages (fetch (release == "release") ptype) page ptype
        release ((packages.filter (fun p => p.2 = ptype)).map (fun p => p.1))
        dict m with
    | error e => rw [hpp] at h; simp at h
    | ok dm =>
      obtain ⟨dictA, mA⟩ := dm
      rw [hpp] at h
      have hstep := processPackages_inv (fetch (release == "release") ptype)
        page ptype release (hpages _ (List.mem_cons_self _ _)) _ dict m dictA mA
        hinv hpp
      have hrec := pageLoop_inv packages fetch rest dictA mA dict2 m2
        (fun it hit => hpages it (List.mem_cons_of_mem _ hit)) hstep.2 h
      exact ⟨le_trans hstep.1 hrec.1, hrec.2⟩

/-- An upper bound of a list bounds its maximum. -/
theorem foldr_max_le {l : List Nat} {M : Nat} (h : ∀ x ∈ l, x ≤ M) :
    l.foldr max 0 ≤ M := by
  induction l with
  | nil => simp
  | cons a t ih =>
    simp only [List.foldr_cons]
    exact max_le (h a (List.mem_cons_self _ _))
      (ih fun x hx => h x (List.mem_cons_of_mem _ hx))

/-- Every member is at most the maximum. -/
theorem le_foldr_max {l : List Nat} {x : Nat} (h : x ∈ l) :
    x ≤ l.foldr max 0 := by
  induction l with
  | nil => simp at h
  | cons a t ih =>
    simp only [List.foldr_cons]
    rcases List.mem_cons.mp h with rfl | hx
    · exact le_max_left _ _
    · exact le_trans (ih hx) (le_max_right _ _)

/-- The maximum of a non-empty constant list is that constant. -/
theorem foldr_max_const {l : List Nat} {c : Nat} (hne : l ≠ [])
    (h : ∀ x ∈ l, x = c) : l.foldr max 0 = c := by
  induction l with
  | nil => exact absurd rfl hne
  | cons a t ih =>
    simp only [List.foldr_cons]
    obtain rfl : a = c := h a (List.mem_cons_self _ _)
    cases t with
    | nil => simp
    | cons b u =>
      rw [ih (by simp) fun x hx => h x (List.mem_cons_of_mem _ hx)]
      exact max_self _

/-- Padding to `a` and then to `b ≥ a` is padding to `b`. -/
theorem pad_pad (r : List Field) (a b : Nat) (hab : a ≤ b) :
    (r ++ List.replicate (a - r.length) Field.na) ++
      List.replicate
        (b - (r ++ List.replicate (a - r.length) Field.na).length) Field.na =
      r ++ List.replicate (b - r.length) Field.na := by
  rw [List.append_assoc, ← List.replicate_add]
  congr 2
  simp only [List.length_append, List.length_replicate]
  omega

/-- The column list always counts `8 + m` labels. -/
theorem colNames_length (m : Nat) :
    (baseCols ++ (List.range m).map
      (fun j => "Message " ++ toString (j + 1))).length = 8 + m := by
  simp [baseCols]
  omega

/-- Inversion of a successful `get_package_status`: the table is built from
a dict of good rows, all padded to the common width `8 + m`, and when the
table is non-empty some stored row already reaches that width. -/
theorem get_package_status_ok_inv
    {packages : List (String × String)} {soups : List (String × List Page)}
    {devel : Bool} {fetch : Bool → String → String → Option String}
    {tbl : Table}
    (h : get_package_status packages soups devel fetch = .ok tbl) :
    ∃ m vals,
      (∀ r ∈ vals, GoodRow soups m r) ∧
      (vals = [] → m = 0) ∧
      tbl.cols.length = 8 + m ∧
      ((vals = [] ∧ tbl.rows = []) ∨
       (vals ≠ [] ∧
        tbl.rows = vals.map
          (fun r => r ++ List.replicate ((8 + m) - r.length) Field.na) ∧
        ∃ r0 ∈ vals, 8 + m ≤ r0.length)) := by
  rw [get_package_status] at h
  cases hpl : pageLoop packages fetch
      ((List.flatten (List.replicate (uniqueList (packages.map (fun p => p.2))).length
        (if devel then ["release", "devel"] else ["release"]))).zip
       (pagesData soups (uniqueList (packages.map (fun p => p.2))) devel)) [] 0 with
  | error e => rw [hpl] at h; simp at h
  | ok dm =>
    obtain ⟨dict, m⟩ := dm
    rw [hpl] at h
    dsimp only at h
    have hdinv : DictInv soups m dict := by
      refine (pageLoop_inv packages fetch _ [] 0 dict m ?_ ⟨by simp, fun _ => rfl⟩ hpl).2
      intro it hit
      have hz := (List.of_mem_zip hit).2
      exact pagesData_pageOf (t := it.2.2) (by simpa using hz)
    cases hpd : padDict (7 + m) dict with
    | error e => rw [hpd] at h; simp at h
    | ok rows1 =>
      rw [hpd] at h
      dsimp only at h
      have hrows1 : rows1 = (dict.filterMap id).map
          (fun r => r ++ List.replicate ((7 + m) - r.length) Field.na) := by
        unfold padDict at hpd
        split at hpd
        · simpa using hpd.symm
        · simp at hpd
      refine ⟨m, dict.filterMap id, ?_, hdinv.2, ?_, ?_⟩
      · intro r hr
        rw [List.mem_filterMap] at hr
        obtain ⟨r?, hmem, hid⟩ := hr
        exact hdinv.1 r? hmem r hid
      · unfold from_dict at h
        split at h
        · obtain rfl : tbl = ⟨_, _⟩ := by simpa using h.symm
          exact colNames_length m
        · split at h
          · obtain rfl : tbl = ⟨_, _⟩ := by simpa using h.symm
            exact colNames_length m
          · simp at h
      · unfold from_dict at h
        split at h
        next hemp =>
          obtain rfl : tbl = ⟨_, _⟩ := by simpa using h.symm
          refine Or.inl ⟨?_, rfl⟩
          rw [List.isEmpty_iff] at hemp
          rw [hrows1] at hemp
          exact List.map_eq_nil_iff.mp hemp
        next hemp =>
          split at h
          next hw =>
            obtain rfl : tbl = ⟨_, _⟩ := by simpa using h.symm
            rw [List.isEmpty_iff] at hemp
            have hvne : dict.filterMap id ≠ [] := by
              intro hc
              exact hemp (by rw [hrows1, hc]; rfl)
            have hwidth : tableWidth rows1 = 8 + m := by
              rw [hw, colNames_length]
            refine Or.inr ⟨hvne, ?_, ?_⟩
            · show rows1.map _ = _
              rw [hwidth, hrows1, List.map_map]
              refine List.map_congr_left ?_
              intro r _
              simp only [Function.comp_apply]
              exact pad_pad r (7 + m) (8 + m) (by omega)
            · by_contra hno
              push_neg at hno
              have hconst : ∀ x ∈ rows1.map List.length, x = 7 + m := by
                intro x hx
                rw [hrows1, List.map_map] at hx
                rw [List.mem_map] at hx
                obtain ⟨r, hrmem, hrx⟩ := hx
                have hlt := hno r hrmem
                simp only [Function.comp] at hrx
                rw [← hrx]
                simp only [List.length_append, List.length_replicate]
                omega
              have : tableWidth rows1 = 7 + m := by
                rw [tableWidth]
                refine foldr_max_const ?_ hconst
                intro hc
                rw [List.map_eq_nil_iff] at hc
                rw [hrows1] at hc
                exact hvne (List.map_eq_nil_iff.mp hc)
              omega
          · simp at h

/-- Message cells of a map of strings are all kept by the non-absent
filter. -/
theorem filter_not_isNA_map_str (msgs : List String) :
    (msgs.map Field.str).filter (fun f => !f.isNA) = msgs.map Field.str := by
  induction msgs with
  | nil => rfl
  | cons a t ih => simp [Field.isNA, ih]

/-- Absent padding cells are all dropped by the non-absent filter. -/
theorem filter_not_isNA_replicate (n : Nat) :
    (List.replicate n Field.na).filter (fun f => !f.isNA) = [] := by
  induction n with
  | zero => rfl
  | succ k ih => simp [List.replicate_succ, Field.isNA, ih]

/-- The message count of a decomposed row is the number of its message
cells. -/
theorem msgCount_decomp (base : List Field) (msgs : List String) (k : Nat)
    (hb : base.length = 8) :
    msgCount (base ++ msgs.map Field.str ++ List.replicate k Field.na) =
      msgs.length := by
  rw [msgCount, List.append_assoc, ← hb, List.drop_left, List.filter_append,
    filter_not_isNA_map_str, filter_not_isNA_replicate, List.append_nil,
    List.length_map]

/-- Decomposition of a good row after padding to the common width `8 + m`:
eight fixed cells, the message cells, then absent padding; the number of
non-absent cells beyond the fixed ones is the row's own message count. -/
theorem padded_decomp {soups : List (String × List Page)} {m : Nat}
    {r : List Field} (hg : GoodRow soups m r) :
    ∃ (base : List Field) (msgs : List String),
      base.length = 8 ∧ msgs.length ≤ m ∧
      r.length ≤ 8 + msgs.length ∧
      r ++ List.replicate ((8 + m) - r.length) Field.na =
        base ++ msgs.map Field.str ++
          List.replicate (m - msgs.length) Field.na ∧
      msgCount (r ++ List.replicate ((8 + m) - r.length) Field.na) =
        msgs.length := by
  obtain ⟨nm, rel, rfl⟩ | ⟨nm, t, rel, v, mnt, rfl⟩ |
      ⟨nm, t, rel, v, mnt, status, stage, msgs, card, rfl, hle, _⟩ := hg
  · refine ⟨nfRow nm rel ++ [Field.na], [], by simp [nfRow], by simp, by simp [nfRow], ?_, ?_⟩
    · have h7 : (nfRow nm rel).length = 7 := by simp [nfRow]
      rw [h7]
      have hc : (8 + m) - 7 = m + 1 := by omega
      rw [hc]
      simp [List.replicate_succ, List.append_assoc]
    · have hdec : nfRow nm rel ++
          List.replicate ((8 + m) - (nfRow nm rel).length) Field.na =
          (nfRow nm rel ++ [Field.na]) ++ ([] : List String).map Field.str ++
            List.replicate (m - 0) Field.na := by
        have h7 : (nfRow nm rel).length = 7 := by simp [nfRow]
        rw [h7]
        have hc : (8 + m) - 7 = m + 1 := by omega
        rw [hc]
        simp [List.replicate_succ, List.append_assoc]
      rw [hdec, msgCount_decomp _ _ _ (by simp [nfRow])]
  · refine ⟨okRowOf nm t rel v mnt, [], by simp [okRowOf], by simp,
      by simp [okRowOf], ?_, ?_⟩
    · have h8 : (okRowOf nm t rel v mnt).length = 8 := by simp [okRowOf]
      rw [h8]
      have hc : (8 + m) - 8 = m := by omega
      rw [hc]
      simp
    · have hdec : okRowOf nm t rel v mnt ++
          List.replicate ((8 + m) - (okRowOf nm t rel v mnt).length) Field.na =
          okRowOf nm t rel v mnt ++ ([] : List String).map Field.str ++
            List.replicate (m - 0) Field.na := by
        have h8 : (okRowOf nm t rel v mnt).length = 8 := by simp [okRowOf]
        rw [h8]
        have hc : (8 + m) - 8 = m := by omega
        rw [hc]
        simp
      rw [hdec, msgCount_decomp _ _ _ (by simp [okRowOf])]
  · have hsplit : failRowOf nm t rel v mnt (upperStr status) stage msgs =
        [Field.str nm, Field.str t, Field.str rel, Field.str v, Field.str mnt,
         Field.str (upperStr status), Field.str stage,
         Field.nat msgs.length] ++ msgs.map Field.str := rfl
    have hlen : (failRowOf nm t rel v mnt (upperStr status) stage msgs).length =
        8 + msgs.length := by
      simp [failRowOf]
      omega
    refine ⟨[Field.str nm, Field.str t, Field.str rel, Field.str v, Field.str mnt,
      Field.str (upperStr status), Field.str stage, Field.nat msgs.length],
      msgs, by simp, hle, by rw [hlen], ?_, ?_⟩
    · rw [hlen, hsplit]
      have hc : (8 + m) - (8 + msgs.length) = m - msgs.length := by omega
      rw [hc, List.append_assoc]
    · have hdec : failRowOf nm t rel v mnt (upperStr status) stage msgs ++
          List.replicate
            ((8 + m) - (failRowOf nm t rel v mnt (upperStr status) stage msgs).length)
            Field.na =
          [Field.str nm, Field.str t, Field.str rel, Field.str v, Field.str mnt,
           Field.str (upperStr status), Field.str stage,
           Field.nat msgs.length] ++ msgs.map Field.str ++
            List.replicate (m - msgs.length) Field.na := by
        rw [hlen, hsplit]
        have hc : (8 + m) - (8 + msgs.length) = m - msgs.length := by omega
        rw [hc, List.append_assoc]
      rw [hdec, msgCount_decomp _ _ _ (by simp)]

/-- C3: for every batch on which `get_package_status` returns a table, with
`M` the maximum message count over the produced records, every row consists
of exactly the 8 fixed cells followed by `M` message slots — its own
messages and then absent placeholders — so all rows share the rectangular
width of the column list. -/
theorem table_rectangular
    (packages : List (String × String)) (soups : List (String × List Page))
    (devel : Bool) (fetch : Bool → String → String → Option String)
    (tbl : Table)
    (h : get_package_status packages soups devel fetch = .ok tbl) :
    8 ≤ tbl.cols.length ∧
    (∀ r ∈ tbl.rows,
      r.length = tbl.cols.length ∧
      ∃ (base : List Field) (msgs : List String), base.length = 8 ∧
        msgs.length ≤ tbl.cols.length - 8 ∧
        r = base ++ msgs.map Field.str ++
          List.replicate ((tbl.cols.length - 8) - msgs.length) Field.na ∧
        msgCount r = msgs.length) ∧
    (tbl.rows.map msgCount).foldr max 0 = tbl.cols.length - 8 := by
  obtain ⟨m, vals, hgood, hmz, hcols, hcase⟩ := get_package_status_ok_inv h
  have hm8 : tbl.cols.length - 8 = m := by omega
  refine ⟨by omega, ?_, ?_⟩
  · intro r hr
    rcases hcase with ⟨hv, hrows⟩ | ⟨hvne, hrows, hach⟩
    · rw [hrows] at hr; simp at hr
    · rw [hrows] at hr
      rw [List.mem_map] at hr
      obtain ⟨r0, hr0, rfl⟩ := hr
      obtain ⟨base, msgs, hb, hle, hrl, hdec, hcnt⟩ := padded_decomp (hgood r0 hr0)
      rw [hm8]
      refine ⟨?_, base, msgs, hb, hle, hdec, hcnt⟩
      simp only [List.length_append, List.length_replicate]
      omega
  · rcases hcase with ⟨hv, hrows⟩ | ⟨hvne, hrows, r0, hr0, hr0len⟩
    · rw [hrows]
      simp only [List.map_nil, List.foldr_nil]
      have hm0 := hmz hv
      omega
    · rw [hm8]
      have hub : ∀ x ∈ tbl.rows.map msgCount, x ≤ m := by
        intro x hx
        rw [List.mem_map] at hx
        obtain ⟨r, hrmem, rfl⟩ := hx
        rw [hrows] at hrmem
        rw [List.mem_map] at hrmem
        obtain ⟨r1, hr1, rfl⟩ := hrmem
        obtain ⟨base, msgs, _, hle, _, _, hcnt⟩ := padded_decomp (hgood r1 hr1)
        rw [hcnt]
        exact hle
      obtain ⟨base, msgs, _, hle0, hrl0, _, hcnt0⟩ := padded_decomp (hgood r0 hr0)
      have hmsgs0 : msgs.length = m := by omega
      have hmem : m ∈ tbl.rows.map msgCount := by
        rw [List.mem_map]
        refine ⟨r0 ++ List.replicate ((8 + m) - r0.length) Field.na, ?_, ?_⟩
        · rw [hrows, List.mem_map]
          exact ⟨r0, hr0, rfl⟩
        · rw [hcnt0, hmsgs0]
      exact le_antisymm (foldr_max_le hub) (le_foldr_max hmem)

/-- C2 (amended): in every returned table, a record whose card carried
`"ok"` has Log Level `"OK"`, absent Stage and Message Count 0; a record of
a package missing from the index is the (misaligned) not-found row followed
by absent padding; and every other record has an upper-cased failing level,
a present stage and a message count equal to its number of extracted
messages, which may be 0. -/
theorem level_stage_count_trichotomy
    (packages : List (String × String)) (soups : List (String × List Page))
    (devel : Bool) (fetch : Bool → String → String → Option String)
    (tbl : Table)
    (hcls : ∀ st ∈ soups, ∀ pg ∈ st.2, ∀ nc ∈ pg, ∀ c ∈ nc.2.classes,
      c ∈ (["ok", "warning", "error", "timeout"] : List String))
    (h : get_package_status packages soups devel fetch = .ok tbl) :
    ∀ r ∈ tbl.rows,
      (∃ (nm rel : String) (k : Nat),
        r = nfRow nm rel ++ List.replicate k Field.na)
      ∨ (r[5]? = some (Field.str "OK") ∧ r[6]? = some Field.na ∧
         r[7]? = some (Field.nat 0))
      ∨ (∃ (lvl stage : String) (n : Nat),
         lvl ∈ (["WARNING", "ERROR", "TIMEOUT"] : List String) ∧
         r[5]? = some (Field.str lvl) ∧ r[6]? = some (Field.str stage) ∧
         r[7]? = some (Field.nat n)) := by
  obtain ⟨m, vals, hgood, hmz, hcols, hcase⟩ := get_package_status_ok_inv h
  intro r hr
  rcases hcase with ⟨hv, hrows⟩ | ⟨hvne, hrows, hach⟩
  · rw [hrows] at hr; simp at hr
  · rw [hrows] at hr
    rw [List.mem_map] at hr
    obtain ⟨r0, hr0, rfl⟩ := hr
    obtain hnf | hok | hfail := hgood r0 hr0
    · obtain ⟨nm, rel, rfl⟩ := hnf
      exact Or.inl ⟨nm, rel, _, rfl⟩
    · obtain ⟨nm, t, rel, v, mnt, rfl⟩ := hok
      refine Or.inr (Or.inl ⟨?_, ?_, ?_⟩)
      · rw [List.getElem?_append, if_pos (by simp [okRowOf])]
        rfl
      · rw [List.getElem?_append, if_pos (by simp [okRowOf])]
        rfl
      · rw [List.getElem?_append, if_pos (by simp [okRowOf])]
        rfl
    · obtain ⟨nm, t, rel, v, mnt, status, stage, msgs, card, rfl, hle, hcard,
        hmem, hok2, hgc⟩ := hfail
      have hsplit : failRowOf nm t rel v mnt (upperStr status) stage msgs =
          [Field.str nm, Field.str t, Field.str rel, Field.str v, Field.str mnt,
           Field.str (upperStr status), Field.str stage,
           Field.nat msgs.length] ++ msgs.map Field.str := rfl
      refine Or.inr (Or.inr ⟨upperStr status, stage, msgs.length, ?_, ?_, ?_, ?_⟩)
      rotate_left
      · rw [hsplit, List.append_assoc, List.getElem?_append,
          if_pos (by simp)]
        rfl
      · rw [hsplit, List.append_assoc, List.getElem?_append,
          if_pos (by simp)]
        rfl
      · rw [hsplit, List.append_assoc, List.getElem?_append,
          if_pos (by simp)]
        rfl
      obtain ⟨t2, pages, pg, nm2, hs, hp, hc⟩ := hcard
      have hin := hcls _ hs _ hp _ hc status hmem
      simp only [List.mem_cons, List.not_mem_nil, or_false] at hin
      rcases hin with h1 | h1 | h1 | h1
      · exact absurd h1 hok2
      · subst h1
        have hu : upperStr "warning" = "WARNING" := by decide
        rw [hu]
        exact List.mem_cons_self _ _
      · subst h1
        have hu : upperStr "error" = "ERROR" := by decide
        rw [hu]
        exact List.mem_cons_of_mem _ (List.mem_cons_self _ _)
      · subst h1
        have hu : upperStr "timeout" = "TIMEOUT" := by decide
        rw [hu]
        exact List.mem_cons_of_mem _
          (List.mem_cons_of_mem _ (List.mem_cons_self _ _))

/-- The failing row of the shared witness batch. -/
def rowW : List Field :=
  [Field.str "beta", Field.str "Software", Field.str "release",
   Field.str "2.0", Field.str "Bob", Field.str "ERROR", Field.str "check",
   Field.nat 2, Field.str "checking X ... ERROR\ndetail one",
   Field.str "checking Y ... ERROR\nmore"]

/-- Witness for C3 at the shared witness batch. -/
theorem table_rectangular_witness :
    8 ≤ tblW.cols.length ∧
    (∀ r ∈ tblW.rows,
      r.length = tblW.cols.length ∧
      ∃ (base : List Field) (msgs : List String), base.length = 8 ∧
        msgs.length ≤ tblW.cols.length - 8 ∧
        r = base ++ msgs.map Field.str ++
          List.replicate ((tblW.cols.length - 8) - msgs.length) Field.na ∧
        msgCount r = msgs.length) ∧
    (tblW.rows.map msgCount).foldr max 0 = tblW.cols.length - 8 :=
  table_rectangular packagesW soupsW false fetchW tblW (by decide)

/-- Witness for C2 (amended) at the failing row of the shared witness
batch. -/
theorem level_stage_count_trichotomy_witness :
    (∃ (nm rel : String) (k : Nat),
      rowW = nfRow nm rel ++ List.replicate k Field.na)
    ∨ (rowW[5]? = some (Field.str "OK") ∧ rowW[6]? = some Field.na ∧
       rowW[7]? = some (Field.nat 0))
    ∨ (∃ (lvl stage : String) (n : Nat),
       lvl ∈ (["WARNING", "ERROR", "TIMEOUT"] : List String) ∧
       rowW[5]? = some (Field.str lvl) ∧ rowW[6]? = some (Field.str stage) ∧
       rowW[7]? = some (Field.nat n)) :=
  level_stage_count_trichotomy packagesW soupsW false fetchW tblW
    (by decide) (by decide) rowW (by decide)

/-- C8 (amended): when a failing package has a log link but the fetched log
page has no preformatted block, the extraction raises an exception carrying
the fixed message `"Could not find error/warning log."` — which names
neither the package nor the channel — while a package missing from the link
index degrades to a stored `"NOT FOUND"` row without raising. -/
theorem missing_log_raises_fixed_message
    (fetchLog : String → Option String)
    (name ptype release version maintainer status : String) (card : CardInfo)
    (anchor : Anchor) (link stage : String)
    (hanchor : List.lookup (upperStr status) card.anchors = some anchor)
    (hhref : anchor.href = some link)
    (hlen : 2 ≤ (splitDashDot link).length)
    (hstage : stage_dict (secondLastTok (splitDashDot link)) = some stage)
    (hfetch : fetchLog link = none) :
    processFailingStatus fetchLog name ptype release version maintainer status
      card = .error (.exception "Could not find error/warning log.")
    ∧ ∀ (page : Page) (t rel nm : String) (mm : Nat),
        List.lookup nm page = none →
        processPackage fetchLog page t rel nm mm =
          .ok (some (nfRow nm rel), mm) := by
  constructor
  · have hlen2 : ¬((splitDashDot link).length < 2) := by omega
    simp [processFailingStatus, get_log_messages, hanchor, hhref, hstage,
      hfetch, hlen2]
  · intro page t rel nm mm hnone
    simp [processPackage, hnone]

/-- Witness for C8 (amended) at the concrete `errCard` setup with a log
fetch that finds no preformatted block. -/
theorem missing_log_raises_fixed_message_witness :
    processFailingStatus (fun _ => none) "beta" "Software" "release" "2.0"
      "Bob" "error" errCard =
      .error (.exception "Could not find error/warning log.") :=
  (missing_log_raises_fixed_message (fun _ => none) "beta" "Software"
    "release" "2.0" "Bob" "error" errCard ⟨some "beta-checksrc.html", "ctx"⟩
    "beta-checksrc.html" "check" (by decide) (by decide) (by decide)
    (by decide) (by decide)).1

/-- A member of a successful `mapExcept` run comes from a source element. -/
theorem mapExcept_mem {α β ε : Type} {f : α → Except ε β} :
    ∀ {l : List α} {ys : List β}, mapExcept f l = .ok ys →
      ∀ y ∈ ys, ∃ x ∈ l, f x = .ok y
  | [], ys, h => by
    obtain rfl : ([] : List β) = ys := by simpa [mapExcept] using h
    intro y hy
    simp at hy
  | a :: l, ys, h => by
    rw [mapExcept] at h
    cases hfa : f a with
    | error e => rw [hfa] at h; simp at h
    | ok b =>
      rw [hfa] at h
      cases hml : mapExcept f l with
      | error e => rw [hml] at h; simp at h
      | ok bs =>
        rw [hml] at h
        obtain rfl : b :: bs = ys := by simpa using h
        intro y hy
        rcases List.mem_cons.mp hy with rfl | hy2
        · exact ⟨a, List.mem_cons_self _ _, hfa⟩
        · obtain ⟨x, hx, hfx⟩ := mapExcept_mem hml y hy2
          exact ⟨x, List.mem_cons_of_mem _ hx, hfx⟩

/-- A converted row keeps the package name. -/
theorem statOfRaw_name {name : String} {raw : RawStatRow} {s : DownloadStat}
    (h : statOfRaw name raw = .ok s) : s.Name = name := by
  rw [statOfRaw] at h
  cases hm : monthNum raw.Month with
  | none => rw [hm] at h; simp at h
  | some mo =>
    rw [hm] at h
    obtain rfl : (⟨name, ⟨raw.Year, mo, 1, 0, 0⟩, raw.Nb_of_downloads,
        raw.Nb_of_distinct_IPs⟩ : DownloadStat) = s := by simpa using h
    rfl

/-- Every row of a successful per-package pipeline is dated before the
query time and comes from a non-aggregate upstream row. -/
theorem packageStats_mem {name : String} {now : DateTime}
    {rows : List RawStatRow} {dated : List DownloadStat}
    (h : packageStats name now rows = .ok dated) :
    ∀ s ∈ dated, s.Date.before now = true ∧
      ∃ raw ∈ rows, raw.Month ≠ "all" ∧ statOfRaw name raw = .ok s := by
  rw [packageStats] at h
  cases hme : mapExcept (statOfRaw name)
      (rows.filter (fun r => r.Month != "all")) with
  | error e => rw [hme] at h; simp at h
  | ok l =>
    rw [hme] at h
    obtain rfl : l.filter (fun s => s.Date.before now) = dated := by simpa using h
    intro s hs
    have hbefore := List.of_mem_filter hs
    have hsl := List.mem_of_mem_filter hs
    obtain ⟨raw, hrawmem, hok⟩ := mapExcept_mem hme s hsl
    refine ⟨hbefore, raw, List.mem_of_mem_filter hrawmem, ?_, hok⟩
    have := List.of_mem_filter hrawmem
    simpa using this

/-- Accumulator-generalised form of the C7 exclusions. -/
theorem get_download_stats_inv (fetchTab : String → Option (List RawStatRow))
    (clock : String → DateTime) :
    ∀ (names : List String) (dfs : List (List DownloadStat))
      (stats : List DownloadStat),
      get_download_stats fetchTab clock names dfs = .ok stats →
      ∀ s ∈ stats, s ∈ dfs.flatten ∨
        (s.Date.before (clock s.Name) = true ∧
         ∃ (rows : List RawStatRow) (raw : RawStatRow),
           fetchTab s.Name = some rows ∧ raw ∈ rows ∧
           raw.Month ≠ "all" ∧ statOfRaw s.Name raw = .ok s)
  | [], dfs, stats, h => by
    rw [get_download_stats] at h
    split at h
    · simp at h
    · obtain rfl : dfs.flatten = stats := by simpa using h
      exact fun s hs => Or.inl hs
  | name :: rest, dfs, stats, h => by
    rw [get_download_stats] at h
    cases hft : fetchTab name with
    | none =>
      rw [hft] at h
      exact get_download_stats_inv fetchTab clock rest dfs stats h
    | some rows =>
      rw [hft] at h
      dsimp only at h
      cases hps : packageStats name (clock name) rows with
      | error e => rw [hps] at h; simp at h
      | ok df =>
        rw [hps] at h
        have hrec := get_download_stats_inv fetchTab clock rest (dfs ++ [df])
          stats h
        intro s hs
        rcases hrec s hs with hin | hgood
        · rw [List.flatten_append] at hin
          rcases List.mem_append.mp hin with hin2 | hin2
          · exact Or.inl hin2
          · have hdf : s ∈ df := by simpa using hin2
            obtain ⟨hbefore, raw, hraw, hall, hok⟩ := packageStats_mem hps s hdf
            have hname : s.Name = name := statOfRaw_name hok
            rw [← hname] at hft hbefore hok
            exact Or.inr ⟨hbefore, rows, raw, hft, hraw, hall, hok⟩
        · exact Or.inr hgood

/-- C7: every row returned by `get_download_stats` is dated strictly before
the query time read while that package was processed, and stems from an
upstream row whose Month is not the `"all"` aggregate. -/
theorem download_stats_exclusions (fetchTab : String → Option (List RawStatRow))
    (clock : String → DateTime) (names : List String)
    (stats : List DownloadStat)
    (h : get_download_stats fetchTab clock names [] = .ok stats) :
    ∀ s ∈ stats,
      s.Date.before (clock s.Name) = true ∧
      ∃ (rows : List RawStatRow) (raw : RawStatRow),
        fetchTab s.Name = some rows ∧ raw ∈ rows ∧
        raw.Month ≠ "all" ∧ statOfRaw s.Name raw = .ok s := by
  intro s hs
  rcases get_download_stats_inv fetchTab clock names [] stats h s hs with
    hin | hgood
  · simp at hin
  · exact hgood

/-- Witness for C7 at the concrete stats batch. -/
theorem download_stats_exclusions_witness :
    statW.Date.before (clockW statW.Name) = true ∧
    ∃ (rows : List RawStatRow) (raw : RawStatRow),
      fetchTabW statW.Name = some rows ∧ raw ∈ rows ∧
      raw.Month ≠ "all" ∧ statOfRaw statW.Name raw = .ok statW :=
  download_stats_exclusions fetchTabW clockW ["pkg"] [statW] (by decide)
    statW (by decide)

/-- The Bug and Labelled cells of a detail row are decided by the label
list: Labelled by non-emptiness, Bug by a substring test on the first label
only. -/
theorem issueRow_label_facts (pak : String) (i : Issue) :
    ((issueRow pak i).Bug = "Yes" ↔
      ∃ (l : String) (ls : List String),
        i.labels = l :: ls ∧ containsStr l "bug" = true) ∧
    ((issueRow pak i).Labelled = "Yes" ↔ i.labels ≠ []) ∧
    (∀ i2 : Issue, i2.labels.head? = i.labels.head? →
      (issueRow pak i2).Bug = (issueRow pak i).Bug) := by
  obtain ⟨ti, ni, labels, ai, ui⟩ := i
  refine ⟨?_, ?_, ?_⟩
  · cases labels with
    | nil => simp [issueRow]
    | cons l ls =>
      cases hb : containsStr l "bug" with
      | true =>
        simp only [issueRow]
        simp [hb]
      | false =>
        simp only [issueRow]
        simp [hb]
  · cases labels with
    | nil => simp [issueRow]
    | cons l ls => simp [issueRow]
  · intro i2 hh
    obtain ⟨t2, n2, labels2, a2, u2⟩ := i2
    cases labels with
    | nil =>
      cases labels2 with
      | nil => rfl
      | cons l2 ls2 => simp at hh
    | cons l ls =>
      cases labels2 with
      | nil => simp at hh
      | cons l2 ls2 =>
        obtain rfl : l2 = l := by simpa using hh
        simp [issueRow]

/-- Accumulator-generalised provenance of the detail rows of
`get_github_status`. -/
theorem get_github_status_inv :
    ∀ (query : List (String × Option (List Issue))) (detail : List IssueRow)
      (missing noIss : List String) (rows : List IssueRow),
      (get_github_status query detail missing noIss).1 = some rows →
      ∀ row ∈ rows, row ∈ detail ∨
        ∃ (pak : String) (issues : List Issue) (issue : Issue),
          (pak, some issues) ∈ query ∧ issue ∈ issues ∧
          row = issueRow pak issue
  | [], detail, missing, noIss, rows, h => by
    rw [get_github_status] at h
    split at h
    · simp at h
    · obtain rfl : detail = rows := by simpa using h
      exact fun row hrow => Or.inl hrow
  | (pak, none) :: rest, detail, missing, noIss, rows, h => by
    rw [get_github_status] at h
    intro row hrow
    rcases get_github_status_inv rest detail _ _ rows h row hrow with hin | hex
    · exact Or.inl hin
    · obtain ⟨p, iss, i, hq, hi, hr⟩ := hex
      exact Or.inr ⟨p, iss, i, List.mem_cons_of_mem _ hq, hi, hr⟩
  | (pak, some []) :: rest, detail, missing, noIss, rows, h => by
    rw [get_github_status] at h
    intro row hrow
    rcases get_github_status_inv rest detail _ _ rows h row hrow with hin | hex
    · exact Or.inl hin
    · obtain ⟨p, iss, i, hq, hi, hr⟩ := hex
      exact Or.inr ⟨p, iss, i, List.mem_cons_of_mem _ hq, hi, hr⟩
  | (pak, some (i0 :: is0)) :: rest, detail, missing, noIss, rows, h => by
    rw [get_github_status] at h
    intro row hrow
    rcases get_github_status_inv rest (detail ++ (i0 :: is0).map (issueRow pak))
        _ _ rows h row hrow with hin | hex
    · rcases List.mem_append.mp hin with hin2 | hin2
      · exact Or.inl hin2
      · rw [List.mem_map] at hin2
        obtain ⟨i, hi, rfl⟩ := hin2
        exact Or.inr ⟨pak, i0 :: is0, i, List.mem_cons_self _ _, hi, rfl⟩
    · obtain ⟨p, iss, i, hq, hi, hr⟩ := hex
      exact Or.inr ⟨p, iss, i, List.mem_cons_of_mem _ hq, hi, hr⟩

/-- C10: every detail row of `get_github_status` comes from a queried issue;
its Bug cell is `"Yes"` exactly when the issue has at least one label and
`"bug"` occurs as a substring of the first label name (labels after the
first are never examined), and its Labelled cell is `"Yes"` exactly when
the label list is non-empty. -/
theorem github_bug_from_first_label
    (query : List (String × Option (List Issue))) (rows : List IssueRow)
    (h : (get_github_status query [] [] []).1 = some rows) :
    ∀ row ∈ rows,
      ∃ (pak : String) (issues : List Issue) (issue : Issue),
        (pak, some issues) ∈ query ∧ issue ∈ issues ∧
        row = issueRow pak issue ∧
        (row.Bug = "Yes" ↔ ∃ (l : String) (ls : List String),
          issue.labels = l :: ls ∧ containsStr l "bug" = true) ∧
        (row.Labelled = "Yes" ↔ issue.labels ≠ []) ∧
        (∀ issue2 : Issue, issue2.labels.head? = issue.labels.head? →
          (issueRow pak issue2).Bug = row.Bug) := by
  intro row hrow
  rcases get_github_status_inv query [] [] [] rows h row hrow with hin | hex
  · simp at hin
  · obtain ⟨pak, issues, issue, hq, hi, rfl⟩ := hex
    obtain ⟨hbug, hlab, hhead⟩ := issueRow_label_facts pak issue
    exact ⟨pak, issues, issue, hq, hi, rfl, hbug, hlab, hhead⟩

/-- Witness for C10 at the concrete query. -/
theorem github_bug_from_first_label_witness :
    ∃ (pak : String) (issues : List Issue) (issue : Issue),
      (pak, some issues) ∈ queryW ∧ issue ∈ issues ∧
      issueRow "pkg" issueW = issueRow pak issue ∧
      (((issueRow "pkg" issueW).Bug = "Yes") ↔
        ∃ (l : String) (ls : List String),
          issue.labels = l :: ls ∧ containsStr l "bug" = true) ∧
      (((issueRow "pkg" issueW).Labelled = "Yes") ↔ issue.labels ≠ []) ∧
      (∀ issue2 : Issue, issue2.labels.head? = issue.labels.head? →
        (issueRow pak issue2).Bug = (issueRow "pkg" issueW).Bug) :=
  github_bug_from_first_label queryW [issueRow "pkg" issueW] (by decide)
    (issueRow "pkg" issueW) (by decide)


end Bioc
